import Mathlib

/-!
Verification development for the git-helper CLI (a Go command-line wrapper
around the git executable).  The Go sources are shallowly embedded: the
string manipulation functions of the Go standard library that the code uses
(strings.Split, strings.TrimSpace, strings.Fields, strings.HasPrefix,
strings.SplitN, fmt.Sscanf with a %d verb, strconv.ParseFloat on plain
decimals, ...) are modelled on `List Char` with structural recursion, and
each command handler or interactive selector of the repository is translated
into a pure Lean function over those models.  External processes are
represented by the argument vectors the code would spawn, user input by
explicit string parameters, and Go panics or errors by `Except`/`Option`
results.  All strings handled here are ASCII, so Go byte indexing agrees
with character indexing.
-/

/-- Models the Go predicate unicode.IsSpace restricted to ASCII, which is the
alphabet of all strings this program manipulates. -/
def isGoSpace (c : Char) : Bool :=
  c = ' ' || c = '\t' || c = '\n' || c = '\x0b' || c = '\x0c' || c = '\r'

/-- Splits a character list at every character satisfying `p`, keeping empty
segments, as Go strings.Split does for a one-character separator (with
`p = (· == sep)`) and as a run-splitter basis for strings.Fields. -/
def splitPred (p : Char → Bool) : List Char → List (List Char)
  | [] => [[]]
  | c :: cs =>
    match splitPred p cs with
    | [] => [[]]
    | y :: ys => if p c then [] :: y :: ys else (c :: y) :: ys

/-- Models Go strings.Split(s, sep) for a one-character separator `sep`. -/
def goSplitChar (sep : Char) (cs : List Char) : List (List Char) :=
  splitPred (· == sep) cs

/-- Models Go strings.Fields: the maximal nonempty runs of non-space
characters. -/
def goFields (cs : List Char) : List (List Char) :=
  (splitPred isGoSpace cs).filter (· ≠ [])

/-- Models Go strings.TrimSpace on a character list. -/
def goTrimSpaceList (cs : List Char) : List Char :=
  ((cs.dropWhile isGoSpace).reverse.dropWhile isGoSpace).reverse

/-- Models Go strings.TrimSpace on a string. -/
def goTrimSpace (s : String) : String :=
  String.mk (goTrimSpaceList s.data)

/-- Models Go bufio.Scanner line iteration (bufio.ScanLines): the input is cut
at every newline, a carriage return directly before a newline is dropped, and
a trailing newline does not contribute a final empty line. -/
def goScanLines (cs : List Char) : List (List Char) :=
  if cs.isEmpty then []
  else
    let segs := goSplitChar '\n' cs
    let segs := if segs.getLast? = some [] then segs.dropLast else segs
    segs.map (fun l => if l.getLast? = some '\r' then l.dropLast else l)

/-- Models Go strings.SplitN(s, sep, 2) for a one-character separator: at most
two pieces, the second piece carrying the rest of the input verbatim. -/
def goSplitN2 (sep : Char) (cs : List Char) : List (List Char) :=
  match cs.span (· != sep) with
  | (a, []) => [a]
  | (a, _ :: rest) => [a, rest]

/-- Models Go strings.SplitN(s, sep, 3) for a one-character separator. -/
def goSplitN3 (sep : Char) (cs : List Char) : List (List Char) :=
  match cs.span (· != sep) with
  | (a, []) => [a]
  | (a, _ :: rest) =>
    match rest.span (· != sep) with
    | (b, []) => [a, b]
    | (b, _ :: rest2) => [a, b, rest2]

/-- Numeric value of a list of decimal digit characters, most significant
first, as accumulated by the usual base-10 scan. -/
def digitsToNat (ds : List Char) : Nat :=
  ds.foldl (fun a c => a * 10 + (c.toNat - 48)) 0

/-- Models the integer scan that fmt.Sscanf performs for a single %d verb:
leading spaces are skipped, an optional sign is read, then the longest run of
decimal digits; at least one digit is required, and any trailing characters
are ignored (Sscanf does not demand that the whole input be consumed). -/
def scanInt (s : String) : Option Int :=
  match s.data.dropWhile isGoSpace with
  | '-' :: rest =>
    let ds := rest.takeWhile Char.isDigit
    if ds.isEmpty then none else some (-(digitsToNat ds : Int))
  | '+' :: rest =>
    let ds := rest.takeWhile Char.isDigit
    if ds.isEmpty then none else some ((digitsToNat ds : Int))
  | rest =>
    let ds := rest.takeWhile Char.isDigit
    if ds.isEmpty then none else some ((digitsToNat ds : Int))

/-- Models the Go string slicing expression s[:n], which panics with a slice
bounds error when the string is shorter than n (bytes; all strings here are
ASCII). -/
def goSliceTo (s : String) (n : Nat) : Except String String :=
  if n ≤ s.data.length then .ok (String.mk (s.data.take n))
  else .error "slice bounds out of range"

/-- Models the fmt verb %2d applied to a positive index: right-aligned in a
field of width two. -/
def fmtIdx (n : Nat) : String :=
  if n < 10 then " " ++ Nat.repr n else Nat.repr n


/-- A record of one external process spawn: the executable, its argument
vector, and the text piped to its standard input (empty when none is piped). -/
structure ProcCall where
  exe : String
  args : List String
  stdin : String
  deriving DecidableEq

/-- The two failure kinds of the Go os/exec package that this program can
observe from cmd.Run(): the executable missing from the search path
(exec.ErrNotFound, wrapped in an exec.Error) and the process exiting with a
non-zero status (exec.ExitError).  The constructor payloads carry what the
corresponding Go error message interpolates. -/
inductive ExecErr where
  | notFound (exe : String)
  | exitStatus (code : Nat)
  deriving DecidableEq

/-- The Go error text of the two os/exec failure kinds (exec.Error and
exec.ExitError respectively). -/
def execErrText : ExecErr → String
  | .notFound exe => "exec: \"" ++ exe ++ "\": executable file not found in $PATH"
  | .exitStatus code => "exit status " ++ Nat.repr code

/-- Models checkGitRepo (cmd/common.go): it runs git rev-parse --git-dir and
maps ANY failure of that invocation, whichever of the two kinds it is, to the
one message "not a git repository"; the argument is the outcome of the
invocation. -/
def checkGitRepo : Option ExecErr → Option String
  | none => none
  | some _ => some "not a git repository"

/-- Models the error message built by runPrune (cmd/prune.go) when the
git fetch -p invocation fails: fmt.Errorf with %w appends the text of the
underlying os/exec error. -/
def fetchPruneMsg (e : ExecErr) : String :=
  "failed to fetch and prune: " ++ execErrText e

/-- Models the exit code of main(): a handler returning a non-nil error makes
the process exit 1, a nil return exits 0. -/
def exitCode : Except String Unit → Nat
  | .ok _ => 0
  | .error _ => 1

/-- The ReflogEntry record of cmd/common.go. -/
structure ReflogEntry where
  hash : String
  action : String
  description : String
  deriving DecidableEq

/-- The Branch record of the switch command; the time.Time commit date is
modelled by its display text, which no claim inspects. -/
structure Branch where
  name : String
  lastCommitHash : String
  lastCommitDate : String
  lastCommitMsg : String
  current : Bool
  deriving DecidableEq

/-- The LargeFile record of cmd/clean.go. -/
structure LargeFile where
  path : String
  size : Int
  deriving DecidableEq

/-- Models parseReflog (restore command): each scanner line is cut at the
first space into hash and description; lines without a space (fewer than two
pieces) are skipped.  The Action field stays empty, as in the Go code. -/
def parseReflog (reflog : String) : List ReflogEntry :=
  (goScanLines reflog.data).filterMap (fun line =>
    match goSplitN2 ' ' line with
    | [h, d] => some ⟨String.mk h, "", String.mk d⟩
    | _ => none)

/-- Models the standard-input text that selectCommitWithFzf (restore command)
builds for the fuzzy finder: one line per entry, entry.Hash[:8] followed by a
space and the description.  The slice panics when a hash has fewer than
8 bytes. -/
def fzfReflogInput (entries : List ReflogEntry) : Except String String :=
  (entries.mapM (fun e =>
    (goSliceTo e.hash 8).map (fun h8 => h8 ++ " " ++ e.description ++ "\n"))).map
    (fun ls => String.join ls)

/-- Models the menu that selectCommitWithList (restore command) prints: the
0-based loop index i stops at 20 entries, and each line is
fmt.Printf %2d: %s - %s with the 1-based index, entry.Hash[:8] and the
description.  The hash slice panics when a hash has fewer than 8 bytes. -/
def reflogListLines : List ReflogEntry → Nat → Except String (List String)
  | [], _ => .ok []
  | e :: es, i =>
    if 20 ≤ i then .ok []
    else
      match goSliceTo e.hash 8 with
      | .error msg => .error msg
      | .ok h8 =>
        match reflogListLines es (i + 1) with
        | .error msg => .error msg
        | .ok rest => .ok ((fmtIdx (i + 1) ++ ": " ++ h8 ++ " - " ++ e.description) :: rest)

/-- Models the menu that selectCommitWithListFromReflog (recover command)
prints: same 20-entry cap, line format %2d: %s %s: %s with the 1-based index,
entry.Hash[:8], the action and the description. -/
def reflogActionListLines : List ReflogEntry → Nat → Except String (List String)
  | [], _ => .ok []
  | e :: es, i =>
    if 20 ≤ i then .ok []
    else
      match goSliceTo e.hash 8 with
      | .error msg => .error msg
      | .ok h8 =>
        match reflogActionListLines es (i + 1) with
        | .error msg => .error msg
        | .ok rest =>
          .ok ((fmtIdx (i + 1) ++ ": " ++ h8 ++ " " ++ e.action ++ ": " ++ e.description) :: rest)

/-- Models selectCommitWithList (restore command) as a whole: it prints the
menu, then reads one input token; empty input, a non-numeric input and an
out-of-range index all return the SAME empty string that also stands for
cancellation (this selector, unlike the others, raises no
"invalid selection" error); a valid 1-based index returns the full hash of
that entry.  The range check compares against len(entries), not against the
20 displayed. -/
def selectCommitWithList (entries : List ReflogEntry) (input : String) :
    Except String (List String × String) :=
  match reflogListLines entries 0 with
  | .error msg => .error msg
  | .ok lines =>
    if input = "" then .ok (lines, "")
    else
      match scanInt input with
      | none => .ok (lines, "")
      | some idx =>
        if idx < 1 ∨ (entries.length : Int) < idx then .ok (lines, "")
        else .ok (lines, (entries.getD (idx.toNat - 1) ⟨"", "", ""⟩).hash)

/-- Models the menu printed by selectWorktreeWithList: fmt.Printf %2d: %s for
each worktree path, 1-based, no cap. -/
def worktreeListLines : List String → Nat → List String
  | [], _ => []
  | w :: ws, i => (fmtIdx (i + 1) ++ ": " ++ w) :: worktreeListLines ws (i + 1)

/-- Models the read-and-map step of selectWorktreeWithList (cmd/worktree.go):
empty input is cancellation (empty result, nil error); a non-numeric or
out-of-range input is the error "invalid selection"; a valid 1-based index
returns that worktree path. -/
def selectWorktreeWithList (worktrees : List String) (input : String) :
    String × Option String :=
  if input = "" then ("", none)
  else
    match scanInt input with
    | none => ("", some "invalid selection")
    | some idx =>
      if idx < 1 ∨ (worktrees.length : Int) < idx then ("", some "invalid selection")
      else (worktrees.getD (idx.toNat - 1) "", none)

/-- Models the parsing loop of selectWorktree over the output of
git worktree list --porcelain: each line is trimmed, and lines starting with
"worktree " contribute the path after that marker. -/
def parseWorktrees (output : String) : List String :=
  (goSplitChar '\n' output.data).filterMap (fun l =>
    let line := goTrimSpaceList l
    if ("worktree ".data).isPrefixOf line then some (String.mk (line.drop 9)) else none)

/-- The fzf invocation of selectWorktreeWithFzf, with the worktree paths piped
one per line. -/
def worktreeFzfCall (worktrees : List String) : ProcCall :=
  ⟨"fzf",
    ["--height", "50%", "--reverse", "--preview", "cd \x7b\x7d && git status",
      "--preview-window", "right:50%"],
    String.join (worktrees.map (· ++ "\n"))⟩

/-- Models selectWorktree (cmd/worktree.go) given the captured output of
git worktree list --porcelain, whether fzf is usable (the no-fzf flag is off
and the binary is on the path), the fzf outcome (none models a non-zero exit,
i.e. cancellation) and the list-mode input line.  The returned pair is the
processes spawned by the selection itself and the Go (string, error) result.
An empty parsed list is rejected before either strategy runs. -/
def selectWorktree (output : String) (fzfAvail : Bool) (fzfOutcome : Option String)
    (listInput : String) : List ProcCall × (String × Option String) :=
  let ws := parseWorktrees output
  if ws.isEmpty then ([], ("", some "no worktrees found"))
  else if fzfAvail then
    ([worktreeFzfCall ws],
      match fzfOutcome with
      | none => ("", none)
      | some out => (goTrimSpace out, none))
  else ([], selectWorktreeWithList ws listInput)

/-- Models selectBranchWithList (switch command): empty input is cancellation;
non-numeric or out-of-range input is the error "invalid selection"; a valid
1-based index returns the Name of that branch.  The printed menu involves
time.Time date formatting and is a pure side effect the result does not
depend on, so it is not part of the returned state. -/
def selectBranchWithList (branches : List Branch) (input : String) :
    String × Option String :=
  if input = "" then ("", none)
  else
    match scanInt input with
    | none => ("", some "invalid selection")
    | some idx =>
      if idx < 1 ∨ (branches.length : Int) < idx then ("", some "invalid selection")
      else ((branches.getD (idx.toNat - 1) ⟨"", "", "", "", false⟩).name, none)

/-- True when the trimmed line starts with the character *, as the Go test
strings.HasPrefix(branch, "*") checks. -/
def goHasStar : List Char → Bool
  | '*' :: _ => true
  | _ => false

/-- Models getMergedBranches (cmd/prune.go): the captured output of
git branch --merged is trimmed as a whole, split into lines, each line is
trimmed, and a line is kept only when it is nonempty, does not start with *
and differs from the configured main branch. -/
def getMergedBranches (output : String) (mainBranch : String) : List String :=
  (goSplitChar '\n' (goTrimSpaceList output.data)).filterMap (fun l =>
    let b := goTrimSpaceList l
    if b.isEmpty then none
    else if goHasStar b then none
    else if String.mk b = mainBranch then none
    else some (String.mk b))

/-- The git branch -d invocation the prune deletion loop issues for one
branch. -/
def pruneDeleteCall (b : String) : ProcCall :=
  ⟨"git", ["branch", "-d", b], ""⟩

/-- Models the deletion loop of runPrune: one git branch -d call per entry of
getMergedBranches, in order (failures are reported and skipped, the loop
continues either way, so the attempted calls are exactly these). -/
def pruneDeletions (output mainBranch : String) : List ProcCall :=
  (getMergedBranches output mainBranch).map pruneDeleteCall

/-- Models confirmAction (purge command, shared by prune, clean, refresh,
recover and purge): reads one token and consents exactly on y or Y. -/
def confirmAction (response : String) : Bool :=
  response == "y" || response == "Y"

/-- Models confirmUndo (cmd/undo.go), whose consent test is the same as
confirmAction. -/
def confirmUndo (response : String) : Bool :=
  response == "y" || response == "Y"

/-- The git filter-branch invocation runPurge and runClean issue for one
file. -/
def purgeFilterCall (f : String) : ProcCall :=
  ⟨"git",
    ["filter-branch", "--force", "--index-filter",
      "git rm --cached --ignore-unmatch " ++ f,
      "--prune-empty", "--tag-name-filter", "cat", "--", "--all"], ""⟩

/-- The git push --force invocation runPurge issues under --force-push. -/
def purgePushCall : ProcCall :=
  ⟨"git", ["push", "origin", "--force", "--all"], ""⟩

/-- Models runPurge from the confirmation prompt on, once the file to purge is
fixed: a non-consenting answer prints a cancellation note and returns nil with
no effecting call; a consenting answer runs git filter-branch and, when
--force-push is set, git push --force (both assumed to succeed here).  The
returned list holds the effecting (history-rewriting or remote-mutating)
calls. -/
def runPurgeFrom (file : String) (confirmInput : String) (forcePush : Bool) :
    List ProcCall × Except String Unit :=
  if confirmAction confirmInput then
    if forcePush then ([purgeFilterCall file, purgePushCall], .ok ())
    else ([purgeFilterCall file], .ok ())
  else ([], .ok ())

/-- Models runPurge (purge command): the file comes from the positional
argument or, absent that, from the interactive selection, whose Go
(string, error) outcome is a parameter; a selection error or an empty
selection aborts with an error before the confirmation prompt. -/
def runPurge (arg : Option String) (sel : String × Option String)
    (confirmInput : String) (forcePush : Bool) :
    List ProcCall × Except String Unit :=
  match arg with
  | some f => runPurgeFrom f confirmInput forcePush
  | none =>
    match sel with
    | (_, some e) => ([], .error e)
    | (f, none) =>
      if f = "" then ([], .error "no file selected")
      else runPurgeFrom f confirmInput forcePush

/-- The git bisect start invocation runBisect issues before any selection. -/
def bisectStartCall : ProcCall :=
  ⟨"git", ["bisect", "start"], ""⟩

/-- Models runBisect (bisect command) given the Go (string, error) outcomes of
the good-commit and bad-commit selections; an empty string models a cancelled
selection.  git bisect start runs BEFORE the first selection; the remaining
git invocations (assumed to succeed) mark the chosen commits.  The returned
list holds the mutating git calls. -/
def runBisect (goodSel badSel : String × Option String) :
    List ProcCall × Except String Unit :=
  match goodSel with
  | (_, some e) => ([bisectStartCall], .error ("failed to select good commit: " ++ e))
  | (g, none) =>
    if g = "" then ([bisectStartCall], .error "no good commit selected")
    else
      match badSel with
      | (_, some e) => ([bisectStartCall], .error ("failed to select bad commit: " ++ e))
      | (b, none) =>
        if b = "" then ([bisectStartCall], .error "no bad commit selected")
        else
          ([bisectStartCall, ⟨"git", ["bisect", "good", g], ""⟩,
            ⟨"git", ["bisect", "bad", b], ""⟩], .ok ())

/-- Models runSwitch (switch command) after its preconditions hold, given the
parsed branch list and the Go (string, error) outcome of the selection: an
empty branch list and a cancelled selection are both returned as errors, and
git checkout (the only mutating call, assumed to succeed) runs only for a
nonempty selection. -/
def runSwitch (branches : List Branch) (sel : String × Option String) :
    List ProcCall × Except String Unit :=
  if branches.isEmpty then ([], .error "no branches found")
  else
    match sel with
    | (_, some e) => ([], .error e)
    | (s, none) =>
      if s = "" then ([], .error "no branch selected")
      else ([⟨"git", ["checkout", s], ""⟩], .ok ())

/-- Models runRestore (restore command) after checkGitRepo and the reflog
fetch succeed, given the parsed entries, the selection outcome (empty string
models cancellation; this selector returns no error) and the typed branch
name: a cancelled selection or an empty branch name print a note and return
nil, so the process exits 0; otherwise git checkout -b (assumed to succeed)
creates the branch. -/
def runRestore (entries : List ReflogEntry) (commitSel : String)
    (branchName : String) : List ProcCall × Except String Unit :=
  if entries.isEmpty then ([], .error "no git history found")
  else if commitSel = "" then ([], .ok ())
  else if goTrimSpace branchName = "" then ([], .ok ())
  else ([⟨"git", ["checkout", "-b", goTrimSpace branchName, commitSel], ""⟩], .ok ())

/-- Fixed point of the size loop of formatSize (cmd/common.go): starting from
n = bytes/1024, div = 1024, exp = 0, it divides until n < 1024.  The fuel
bounds the iterations; 8 suffices for any 64-bit value. -/
def formatSizeLoop : Nat → Int → Int → Nat → Int × Nat
  | 0, _, div, exp => (div, exp)
  | fuel + 1, n, div, exp =>
    if 1024 ≤ n then formatSizeLoop fuel (Int.tdiv n 1024) (div * 1024) (exp + 1)
    else (div, exp)

/-- The unit characters "KMGTPE" indexed by the exponent of formatSize. -/
def sizeUnitChars : List Char := ['K', 'M', 'G', 'T', 'P', 'E']

/-- Models formatSize (cmd/common.go).  The fmt verb %.1f on the float64
quotient bytes/div is modelled by rounding the exact quotient to the nearest
tenth, ties away from zero; no claim depends on the rounded digit. -/
def formatSize (bytes : Int) : String :=
  if bytes < 1024 then toString bytes ++ " B"
  else
    let p := formatSizeLoop 8 (Int.tdiv bytes 1024) 1024 0
    let t := (Int.tdiv (bytes * 20 + p.1) (p.1 * 2)).toNat
    toString (t / 10) ++ "." ++ toString (t % 10) ++ " " ++
      String.mk [sizeUnitChars.getD p.2 'K'] ++ "B"

/-- The fzf invocation of selectLargeFileWithFzf (cmd/clean.go), with one line
per file, "path (size)", piped to its standard input — built and spawned
without any emptiness check on the file list. -/
def largeFileFzfCall (files : List LargeFile) : ProcCall :=
  ⟨"fzf",
    ["--height", "50%", "--reverse", "--preview",
      "git log --oneline --all -- \x7b1\x7d", "--preview-window", "right:50%"],
    String.join (files.map (fun f => f.path ++ " (" ++ formatSize f.size ++ ")\n"))⟩

/-- Models selectLargeFileWithFzf (cmd/clean.go) given the file list and the
fzf outcome (none models a non-zero exit, returned as cancellation with nil
error): fzf is always spawned, and on success the first whitespace-separated
field of the trimmed output is returned — an indexing that panics when the
output has no fields. -/
def selectLargeFileWithFzf (files : List LargeFile) (fzfOutcome : Option String) :
    List ProcCall × Except String (String × Option String) :=
  ([largeFileFzfCall files],
    match fzfOutcome with
    | none => .ok ("", none)
    | some out =>
      match goFields (goTrimSpaceList out.data) with
      | [] => .error "index out of range"
      | f :: _ => .ok (String.mk f, none))

/-- Models Go strings.ToUpper on the ASCII strings this program handles. -/
def goToUpper (s : String) : String :=
  String.mk (s.data.map Char.toUpper)

/-- Models Go strconv.ParseInt(s, 10, 64): an optional sign followed by
digits, fully consumed (the 64-bit range check is not modelled; no claim
exercises it). -/
def parseIntGo (s : String) : Option Int :=
  match s.data with
  | '-' :: rest =>
    if rest.isEmpty || !rest.all Char.isDigit then none
    else some (-(digitsToNat rest : Int))
  | '+' :: rest =>
    if rest.isEmpty || !rest.all Char.isDigit then none
    else some ((digitsToNat rest : Int))
  | cs =>
    if cs.isEmpty || !cs.all Char.isDigit then none
    else some ((digitsToNat cs : Int))

/-- Unsigned decimal mantissa of Go strconv.ParseFloat: digits with an
optional single dot, fully consumed, at least one digit overall.  The value
is returned exactly as a pair (numerator, number of fraction digits), i.e.
num / 10^den.  The exponent, hex, infinity and underscore forms that
ParseFloat also accepts are never produced by the size strings considered
here and are not modelled. -/
def parseMantissa (cs : List Char) : Option (Int × Nat) :=
  match cs.span Char.isDigit with
  | (ds, []) => if ds.isEmpty then none else some ((digitsToNat ds : Int), 0)
  | (ds, '.' :: rest2) =>
    match rest2.span Char.isDigit with
    | (fs, []) =>
      if ds.isEmpty && fs.isEmpty then none
      else some ((digitsToNat (ds ++ fs) : Int), fs.length)
    | _ => none
  | _ => none

/-- Models Go strconv.ParseFloat(s, 64) on the plain decimal forms, exactly
(the parsed value is a decimal rational, not a rounded float; every value a
claim evaluates is exactly representable, so the distinction is invisible
here). -/
def parseFloatGo (s : String) : Option (Int × Nat) :=
  match s.data with
  | '-' :: rest => (parseMantissa rest).map (fun p => (-p.1, p.2))
  | '+' :: rest => parseMantissa rest
  | cs => parseMantissa cs

/-- The contents of the multipliers map of parseSize (cmd/clean.go).  Go
iterates a map in an UNSPECIFIED, randomized order, so the functions below
take the iteration order as an explicit parameter ranging over the
permutations of this list. -/
def multipliers : List (String × Int) :=
  [("B", 1), ("KB", 1024), ("MB", 1048576), ("GB", 1073741824)]

/-- The suffix loop of parseSize over one iteration order of the multipliers
map: the FIRST suffix (in that order) that matches ends the loop — on a
ParseFloat failure the error returns immediately, without trying the other
suffixes.  int64(number * float64(multiplier)) is modelled as exact truncated
division (exact for every value evaluated here). -/
def parseSizeLoop (s : String) : List (String × Int) → Except String Int
  | [] =>
    match parseIntGo s with
    | some n => .ok n
    | none => .error ("invalid size format: " ++ s)
  | (suffix, mult) :: rest =>
    if List.isSuffixOf suffix.data s.data then
      let value := String.mk (s.data.take (s.data.length - suffix.data.length))
      match parseFloatGo value with
      | none => .error ("strconv.ParseFloat: parsing \"" ++ value ++ "\": invalid syntax")
      | some p => .ok (Int.tdiv (p.1 * mult) ((10 : Int) ^ p.2))
    else parseSizeLoop s rest

/-- Models parseSize (cmd/clean.go): the input is uppercased, the suffixes of
the multipliers map are tried in the given iteration order, and with no
matching suffix the whole string must be a plain integer byte count. -/
def parseSize (order : List (String × Int)) (size : String) : Except String Int :=
  parseSizeLoop (goToUpper size) order

theorem string_data_append (s t : String) : (s ++ t).data = s.data ++ t.data := by
  cases s
  cases t
  rfl

theorem scanInt_empty : scanInt "" = none := rfl

/-- C5: for the list strategy of the switch command, entering a token that
scans as the 1-based index k with 1 ≤ k ≤ n returns exactly the Name of the
k-th branch, and entering empty input returns the cancellation pair (empty
string, nil error). -/
theorem selectBranchWithList_roundtrip :
    (∀ (branches : List Branch) (input : String) (k : Int),
      scanInt input = some k → 1 ≤ k → k ≤ (branches.length : Int) →
      selectBranchWithList branches input
        = ((branches.getD (k.toNat - 1) ⟨"", "", "", "", false⟩).name, none))
    ∧ ∀ branches : List Branch, selectBranchWithList branches "" = ("", none) := by
  constructor
  · intro branches input k hparse hk1 hk2
    have hne : input ≠ "" := by
      intro hc
      rw [hc, scanInt_empty] at hparse
      exact Option.noConfusion hparse
    have hcond : ¬(k < 1 ∨ (branches.length : Int) < k) := by omega
    simp only [selectBranchWithList, if_neg hne, hparse]
    rw [if_neg hcond]
  · intro branches
    simp [selectBranchWithList]

theorem selectBranchWithList_roundtrip_witness :
    selectBranchWithList
      [⟨"main", "", "", "", false⟩, ⟨"dev", "", "", "", false⟩,
        ⟨"feature-x", "", "", "", false⟩] "2" = ("dev", none) :=
  selectBranchWithList_roundtrip.1 _ "2" 2 rfl (by decide) (by decide)

/-- C10: every git branch -d invocation issued by the prune deletion loop
targets an entry of getMergedBranches, and every such entry is nonempty, does
not start with * (so it is not the current-branch line) and differs from the
configured main branch. -/
theorem pruneDeletions_safe :
    ∀ (output mainBranch : String) (call : ProcCall),
      call ∈ pruneDeletions output mainBranch →
      ∃ b, call = pruneDeleteCall b ∧ b ∈ getMergedBranches output mainBranch ∧
        b ≠ "" ∧ goHasStar b.data = false ∧ b ≠ mainBranch := by
  intro output mainBranch call hcall
  obtain ⟨b, hb, rfl⟩ := List.mem_map.1 hcall
  refine ⟨b, rfl, hb, ?_⟩
  obtain ⟨l, _, hf⟩ := List.mem_filterMap.1 hb
  simp only at hf
  split_ifs at hf with h1 h2 h3
  have hbeq : String.mk (goTrimSpaceList l) = b := Option.some.inj hf
  subst hbeq
  refine ⟨?_, by simpa using h2, h3⟩
  intro hc
  exact h1 (by simp [show goTrimSpaceList l = [] from congrArg String.data hc])

theorem pruneDeletions_safe_witness :
    ∃ b, pruneDeleteCall "feat" = pruneDeleteCall b ∧
      b ∈ getMergedBranches "* cur\n  main\nfeat" "main" ∧
      b ≠ "" ∧ goHasStar b.data = false ∧ b ≠ "main" :=
  pruneDeletions_safe "* cur\n  main\nfeat" "main" (pruneDeleteCall "feat") (by decide)

/-- C2 counterexample: checkGitRepo maps both os/exec failure kinds — git
missing from the path and git exiting non-zero — to the one fixed message
"not a git repository", so its caller cannot distinguish them. -/
theorem checkGitRepo_collapses_error_kinds :
    checkGitRepo (some (.notFound "git")) = some "not a git repository" ∧
    checkGitRepo (some (.exitStatus 128)) = some "not a git repository" :=
  ⟨rfl, rfl⟩

/-- C2 amended: call sites that wrap the os/exec error with the %w verb, such
as the fetch step of runPrune, produce user-facing messages that distinguish
the tool-missing kind from the non-zero-exit kind (the distinction is
inherited from os/exec, not built by this program), but checkGitRepo discards
the error and reports the same message for both kinds. -/
theorem exec_error_kind_distinction :
    (∀ (exe : String) (code : Nat),
      fetchPruneMsg (.notFound exe) ≠ fetchPruneMsg (.exitStatus code))
    ∧ ∀ e e' : ExecErr, checkGitRepo (some e) = checkGitRepo (some e') := by
  constructor
  · intro exe code h
    have hd := congrArg String.data h
    simp only [fetchPruneMsg] at hd
    rw [string_data_append, string_data_append] at hd
    have he := List.append_cancel_left hd
    have hL : (execErrText (ExecErr.notFound exe)).data[2]? = some 'e' := by
      have hdef : execErrText (ExecErr.notFound exe)
          = "exec: \"" ++ exe ++ "\": executable file not found in $PATH" := rfl
      rw [hdef, string_data_append, string_data_append]
      have hA : ("exec: \"".data).length = 7 := rfl
      rw [List.getElem?_append_left (by rw [List.length_append]; omega)]
      rw [List.getElem?_append_left (by omega)]
      rfl
    have hR : (execErrText (ExecErr.exitStatus code)).data[2]? = some 'i' := by
      have hdef : execErrText (ExecErr.exitStatus code)
          = "exit status " ++ Nat.repr code := rfl
      rw [hdef, string_data_append]
      have hA : ("exit status ".data).length = 12 := rfl
      rw [List.getElem?_append_left (by omega)]
      rfl
    rw [he, hR] at hL
    exact absurd hL (by decide)
  · intro e e'
    rfl

/-- C1 counterexample: when the good-commit selection of the bisect command is
cancelled, the handler has already performed a mutating call (git bisect
start, issued before any selection) and reports the cancellation as an error,
so the process exits 1 — not 0 with zero mutations as the claim states. -/
theorem runBisect_cancel_mutates_and_errs :
    (runBisect ("", none) ("", none)).1 ≠ [] ∧
    exitCode (runBisect ("", none) ("", none)).2 = 1 :=
  ⟨by decide, rfl⟩

/-- C1 amended: after a cancelled selection a handler performs no further
mutating call, but cancellation is reported as an error (so the process exits
1) by the handlers that require a selection, such as switch and bisect —
bisect moreover has already run the mutating git bisect start before the
selection; the restore handler alone returns nil (exit 0) on a cancelled
selection. -/
theorem cancellation_handler_behaviour :
    (∀ badSel : String × Option String,
      runBisect ("", none) badSel
        = ([bisectStartCall], .error "no good commit selected"))
    ∧ (∀ branches : List Branch, branches ≠ [] →
      runSwitch branches ("", none) = ([], .error "no branch selected"))
    ∧ ∀ (entries : List ReflogEntry) (branchName : String), entries ≠ [] →
      runRestore entries "" branchName = ([], .ok ()) := by
  refine ⟨fun badSel => rfl, ?_, ?_⟩
  · intro branches h
    cases branches with
    | nil => exact absurd rfl h
    | cons b bs => rfl
  · intro entries branchName h
    cases entries with
    | nil => exact absurd rfl h
    | cons e es => rfl

theorem cancellation_handler_behaviour_witness :
    runSwitch [⟨"main", "", "", "", false⟩] ("", none)
      = ([], .error "no branch selected") ∧
    runRestore [⟨"abcdef1234", "", "m"⟩] "" "b" = ([], .ok ()) :=
  ⟨cancellation_handler_behaviour.2.1 _ (by decide),
    cancellation_handler_behaviour.2.2 _ "b" (by decide)⟩

/-- C3 counterexample: in the list selector of the restore command an
out-of-range index returns exactly the same value as cancellation (the empty
string, with no error), so the two are not distinguishable. -/
theorem selectCommitWithList_invalid_equals_cancel :
    selectCommitWithList [⟨"abcdef1234", "", "commit: x"⟩] "5"
      = selectCommitWithList [⟨"abcdef1234", "", "commit: x"⟩] ""
    ∧ selectCommitWithList [⟨"abcdef1234", "", "commit: x"⟩] "5"
      = .ok ([" 1: abcdef12 - commit: x"], "") :=
  ⟨rfl, rfl⟩

/-- C3 amended: the list selectors raise the error "invalid selection",
distinct from the cancellation pair, for a non-numeric or out-of-range input
— except the commit selector of the restore command, which returns the
cancellation value for such inputs. -/
theorem listSelection_invalid_vs_cancel :
    (∀ (worktrees : List String) (input : String),
        input ≠ "" → scanInt input = none →
        selectWorktreeWithList worktrees input = ("", some "invalid selection"))
    ∧ (∀ (worktrees : List String) (input : String) (k : Int),
        scanInt input = some k → (k < 1 ∨ (worktrees.length : Int) < k) →
        selectWorktreeWithList worktrees input = ("", some "invalid selection"))
    ∧ (("", some "invalid selection") ≠ (("", none) : String × Option String))
    ∧ ∀ (entries : List ReflogEntry) (input : String) (k : Int),
        scanInt input = some k → (k < 1 ∨ (entries.length : Int) < k) →
        selectCommitWithList entries input = selectCommitWithList entries "" := by
  refine ⟨?_, ?_, by decide, ?_⟩
  · intro ws input hne hp
    simp [selectWorktreeWithList, hne, hp]
  · intro ws input k hp hrange
    have hne : input ≠ "" := by
      intro hc
      rw [hc, scanInt_empty] at hp
      exact Option.noConfusion hp
    simp only [selectWorktreeWithList, if_neg hne, hp]
    rw [if_pos hrange]
  · intro es input k hp hrange
    have hne : input ≠ "" := by
      intro hc
      rw [hc, scanInt_empty] at hp
      exact Option.noConfusion hp
    unfold selectCommitWithList
    cases hLL : reflogListLines es 0 with
    | error msg => rfl
    | ok lines =>
      simp [hp, hne, hrange]

theorem listSelection_invalid_vs_cancel_witness :
    selectWorktreeWithList ["/a"] "abc" = ("", some "invalid selection") ∧
    selectWorktreeWithList ["/a"] "7" = ("", some "invalid selection") ∧
    selectCommitWithList [⟨"abcdef1234", "", "m"⟩] "7"
      = selectCommitWithList [⟨"abcdef1234", "", "m"⟩] "" :=
  ⟨listSelection_invalid_vs_cancel.1 ["/a"] "abc" (by decide) rfl,
    listSelection_invalid_vs_cancel.2.1 ["/a"] "7" 7 rfl (by decide),
    listSelection_invalid_vs_cancel.2.2.2 _ "7" 7 rfl (by decide)⟩

/-- C4 counterexample: the large-file selector of the clean command spawns
the fuzzy finder even for an empty file list (piping it empty input) and
returns no "nothing to select from" error. -/
theorem selectLargeFileWithFzf_spawns_on_empty :
    (selectLargeFileWithFzf [] none).1 ≠ [] ∧
    (selectLargeFileWithFzf [] none).2 = .ok ("", none) :=
  ⟨by decide, rfl⟩

/-- C4 amended: selectors that gather and check their list, such as the
worktree selector, reject an empty item list with an error before either
strategy runs and spawn nothing; but the large-file selector of the clean
command performs no emptiness check and spawns the fuzzy finder even for an
empty list. -/
theorem empty_list_selector_behaviour :
    (∀ (output : String) (fzfAvail : Bool) (fzfOutcome : Option String)
        (listInput : String),
        parseWorktrees output = [] →
        selectWorktree output fzfAvail fzfOutcome listInput
          = ([], ("", some "no worktrees found")))
    ∧ ∀ fzfOutcome : Option String,
        (selectLargeFileWithFzf [] fzfOutcome).1.map ProcCall.exe = ["fzf"] := by
  constructor
  · intro output fzfAvail fzfOutcome listInput h
    simp [selectWorktree, h]
  · intro fzfOutcome
    rfl

theorem empty_list_selector_behaviour_witness :
    selectWorktree "" true none "" = ([], ("", some "no worktrees found")) :=
  empty_list_selector_behaviour.1 "" true none "" rfl

/-- C6: the confirmation prompt consents exactly on the inputs y and Y (the
undo variant has the same test), and for any other input — n, yes, or the
empty answer — the purge handler performs zero effecting external-process
calls and returns nil, so the process exits 0. -/
theorem confirmAction_consent_gate :
    (∀ r : String, confirmAction r = true ↔ r = "y" ∨ r = "Y")
    ∧ (∀ r : String, confirmUndo r = confirmAction r)
    ∧ (∀ (f input : String) (sel : String × Option String) (forcePush : Bool),
        input ≠ "y" → input ≠ "Y" →
        runPurge (some f) sel input forcePush = ([], .ok ()))
    ∧ ∀ (f input : String) (forcePush : Bool),
        f ≠ "" → input ≠ "y" → input ≠ "Y" →
        runPurge none (f, none) input forcePush = ([], .ok ()) := by
  have hgate : ∀ input : String, input ≠ "y" → input ≠ "Y" →
      confirmAction input = false := by
    intro input h1 h2
    simp [confirmAction, h1, h2]
  refine ⟨?_, fun r => rfl, ?_, ?_⟩
  · intro r
    simp [confirmAction]
  · intro f input sel forcePush h1 h2
    simp [runPurge, runPurgeFrom, hgate input h1 h2]
  · intro f input forcePush hf h1 h2
    simp [runPurge, runPurgeFrom, hf, hgate input h1 h2]

theorem confirmAction_consent_gate_witness :
    runPurge (some "secrets.txt") ("", none) "n" false = ([], .ok ()) ∧
    runPurge none ("secrets.txt", none) "" true = ([], .ok ()) :=
  ⟨confirmAction_consent_gate.2.2.1 "secrets.txt" "n" ("", none) false
      (by decide) (by decide),
    confirmAction_consent_gate.2.2.2 "secrets.txt" "" true
      (by decide) (by decide) (by decide)⟩

theorem worktreeListLines_spec : ∀ (ws : List String) (i : Nat),
    (worktreeListLines ws i).length = ws.length ∧
    ∀ k, k < ws.length →
      (worktreeListLines ws i).getD k "" = fmtIdx (i + k + 1) ++ ": " ++ ws.getD k "" := by
  intro ws
  induction ws with
  | nil => exact fun i => ⟨rfl, fun k hk => absurd hk (by simp)⟩
  | cons w ws ih =>
    intro i
    constructor
    · simpa [worktreeListLines] using (ih (i + 1)).1
    · intro k hk
      cases k with
      | zero => simp [worktreeListLines]
      | succ k' =>
        have hk' : k' < ws.length := by simpa using hk
        have hrec := (ih (i + 1)).2 k' hk'
        simp only [worktreeListLines, List.getD_cons_succ]
        rw [hrec, show i + 1 + k' + 1 = i + (k' + 1) + 1 from by omega]

theorem reflogListLines_length : ∀ (es : List ReflogEntry) (i : Nat),
    (∀ e ∈ es, 8 ≤ e.hash.data.length) →
    ∃ ls, reflogListLines es i = .ok ls ∧ ls.length = min (20 - i) es.length := by
  intro es
  induction es with
  | nil => exact fun i h => ⟨[], rfl, by simp⟩
  | cons e es ih =>
    intro i h
    by_cases hi : 20 ≤ i
    · refine ⟨[], ?_, ?_⟩
      · simp [reflogListLines, hi]
      · simp [show 20 - i = 0 from by omega]
    · have h8 : 8 ≤ e.hash.data.length := h e (by simp)
      obtain ⟨ls, hls, hlen⟩ := ih (i + 1) (fun x hx => h x (by simp [hx]))
      refine ⟨(fmtIdx (i + 1) ++ ": " ++ String.mk (e.hash.data.take 8) ++ " - "
          ++ e.description) :: ls, ?_, ?_⟩
      · have h8L : 8 ≤ e.hash.length := h8
        simp [reflogListLines, hi, goSliceTo, h8, h8L, hls]
      · simp only [List.length_cons, hlen]
        omega

theorem reflogActionListLines_length : ∀ (es : List ReflogEntry) (i : Nat),
    (∀ e ∈ es, 8 ≤ e.hash.data.length) →
    ∃ ls, reflogActionListLines es i = .ok ls ∧ ls.length = min (20 - i) es.length := by
  intro es
  induction es with
  | nil => exact fun i h => ⟨[], rfl, by simp⟩
  | cons e es ih =>
    intro i h
    by_cases hi : 20 ≤ i
    · refine ⟨[], ?_, ?_⟩
      · simp [reflogActionListLines, hi]
      · simp [show 20 - i = 0 from by omega]
    · have h8 : 8 ≤ e.hash.data.length := h e (by simp)
      obtain ⟨ls, hls, hlen⟩ := ih (i + 1) (fun x hx => h x (by simp [hx]))
      refine ⟨(fmtIdx (i + 1) ++ ": " ++ String.mk (e.hash.data.take 8) ++ " "
          ++ e.action ++ ": " ++ e.description) :: ls, ?_, ?_⟩
      · have h8L : 8 ≤ e.hash.length := h8
        simp [reflogActionListLines, hi, goSliceTo, h8, h8L, hls]
      · simp only [List.length_cons, hlen]
        omega

/-- C7 amended: a list selector prints the items in the caller-supplied order
as index-colon-label lines (the index right-aligned to width two by the %2d
verb), without reordering — the worktree menu prints every item, but the two
reflog list menus print only the first 20 entries (with each hash truncated
to its first 8 bytes). -/
theorem list_print_order_and_cap :
    (∀ ws : List String,
        (worktreeListLines ws 0).length = ws.length ∧
        ∀ k, k < ws.length →
          (worktreeListLines ws 0).getD k "" = fmtIdx (k + 1) ++ ": " ++ ws.getD k "")
    ∧ (∀ es : List ReflogEntry, (∀ e ∈ es, 8 ≤ e.hash.data.length) →
        ∃ ls, reflogListLines es 0 = .ok ls ∧ ls.length = min 20 es.length)
    ∧ ∀ es : List ReflogEntry, (∀ e ∈ es, 8 ≤ e.hash.data.length) →
        ∃ ls, reflogActionListLines es 0 = .ok ls ∧ ls.length = min 20 es.length := by
  refine ⟨?_, ?_, ?_⟩
  · intro ws
    refine ⟨(worktreeListLines_spec ws 0).1, fun k hk => ?_⟩
    simpa using (worktreeListLines_spec ws 0).2 k hk
  · intro es h
    simpa using reflogListLines_length es 0 h
  · intro es h
    simpa using reflogActionListLines_length es 0 h

/-- C7 counterexample: on a reflog of 21 entries the restore list menu prints
only 20 lines — the 21st item is omitted, contradicting the claim that no
item is ever omitted by the selector. -/
theorem reflog_list_omits_items :
    ((reflogListLines (List.replicate 21 ⟨"abcdef1234", "", "m"⟩) 0).toOption.getD []).length
        = 20
    ∧ (List.replicate 21 (⟨"abcdef1234", "", "m"⟩ : ReflogEntry)).length = 21 :=
  ⟨rfl, rfl⟩

theorem list_print_order_and_cap_witness :
    (worktreeListLines ["/a", "/b"] 0).getD 1 "" = " 2: /b" ∧
    ∃ ls, reflogListLines [⟨"abcdef1234", "", "m"⟩] 0 = .ok ls ∧
      ls.length = min 20 1 :=
  ⟨(list_print_order_and_cap.1 ["/a", "/b"]).2 1 (by decide),
    list_print_order_and_cap.2.1 _ (by decide)⟩

/-- C8: parseReflog itself skips a line with no space (malformed lines become
an empty result set), but a parsed entry whose hash token is shorter than
8 bytes — as with the line "ab cd", and likewise with the 7-character
abbreviated hashes git prints by default — makes both the fuzzy-finder input
builder and the list menu of the restore command panic on the slice
entry.Hash[:8] instead of treating the entry as absent. -/
theorem parseReflog_short_hash_panics :
    parseReflog "ab cd" = [⟨"ab", "", "cd"⟩] ∧
    fzfReflogInput (parseReflog "ab cd") = .error "slice bounds out of range" ∧
    reflogListLines (parseReflog "ab cd") 0 = .error "slice bounds out of range" ∧
    parseReflog "malformed" = [] :=
  ⟨by decide, rfl, rfl, by decide⟩

/-- C9: parseSize consults its suffix table by iterating a Go map, whose
iteration order is randomized; "100MB" ends in both "B" and "MB", so an order
that tries "B" first trims to "100M", fails ParseFloat and returns an error,
while an order that tries "MB" first returns 104857600 — the result for
"100MB" is therefore not deterministic, against the documented
clean --min 100MB usage. -/
theorem parseSize_order_dependent_100MB :
    parseSize multipliers "100MB"
      = .error "strconv.ParseFloat: parsing \"100M\": invalid syntax"
    ∧ parseSize [("MB", 1048576), ("B", 1), ("KB", 1024), ("GB", 1073741824)] "100MB"
      = .ok 104857600
    ∧ List.Perm [("MB", (1048576 : Int)), ("B", 1), ("KB", 1024), ("GB", 1073741824)]
        multipliers :=
  ⟨rfl, rfl, by decide⟩
